import Mathlib

/-!
# Verification of the context-keeper core (src/main.rs)

Shallow embedding of the Context Collection & Tiered-Rendering Engine:
multi-repository git discovery (`find_git_repos`, `collect_git_repos`),
git status collection (`collect_git_info_for_path`), history-log filtering
(`collect_command_history`), work-state persistence
(`save_work_state_to_file` / `load_work_state_from_file` / `save_work_state`)
and the tiered renderer (`format_normal` / `format_full`).

External effects are modelled explicitly:
* subprocess output of the `git` queries is a `GitQueries` record per path;
* the filesystem directory tree scanned by `find_git_repos` is a `Dir` tree;
* the JSONL history log is a list of already-parsed `LineParse` values
  (`serde_json::from_str` per line is a parsing oracle);
* regex compilation (`Regex::new`) is an oracle `String → Option (String → Bool)`;
* the per-user work-state file is a `Store` mapping paths to file contents,
  with `serde_json` serialization modelled by an explicit `Json` value type.
-/

namespace ContextKeeper

/-- `HistoryConfig` of src/main.rs: `[history]` section, all fields optional. -/
structure HistoryConfig where
  enabled : Option Bool
  log_file : Option String
  patterns : Option (List String)
  max_entries : Option Nat
deriving DecidableEq

/-- `GitConfig` of src/main.rs: `[git]` section. -/
structure GitConfig where
  paths : Option (List String)
  auto_detect : Option Bool
  scan_depth : Option Nat
deriving DecidableEq

/-- `HistoryEntry` of src/main.rs. -/
structure HistoryEntry where
  timestamp : String
  command : String
deriving DecidableEq

/-- `GitInfo` of src/main.rs. -/
structure GitInfo where
  repo_path : String
  branch : String
  is_dirty : Bool
  modified_files : Nat
  untracked_files : Nat
  last_commit_short : String
deriving DecidableEq

/-- `TodoItem` of src/main.rs. -/
structure TodoItem where
  content : String
  status : String
deriving DecidableEq

/-- `WorkState` of src/main.rs. -/
structure WorkState where
  saved_at : String
  trigger : String
  task_summary : String
  working_files : List String
  notes : String
  todos : List TodoItem
deriving DecidableEq

/-! ## History collector (`collect_command_history`) -/

/-- Result of `serde_json::from_str::<serde_json::Value>` on one log line:
either the line is not valid JSON (`malformed`), or it parsed and
`json["timestamp"].as_str()` / `json["command"].as_str()` give the two
optional string fields (`none` when the field is missing or not a string). -/
inductive LineParse where
  | malformed
  | record (timestamp : Option String) (command : Option String)
deriving DecidableEq

/-- The hard-coded `default_patterns` list of `collect_command_history`. -/
def default_patterns : List String :=
  ["lunch\\s+\\S+", "source\\s+.*envsetup", "export\\s+\\w+=",
   "m\\s+\\S+", "mm\\b", "mma\\b"]

/-- Loop body of `collect_command_history`: what one parsed log line
contributes, given the compiled pattern set. `command` defaults to the empty
string when the field is absent (`unwrap_or("")`), a line is pushed when
`matches_pattern && !command.is_empty()`. -/
def historyKeep (compiled : List (String → Bool)) : LineParse → Option HistoryEntry
  | .malformed => none
  | .record ts cmd =>
    let command := cmd.getD ""
    let matchesP := compiled.isEmpty || compiled.any (fun re => re command)
    if matchesP && command ≠ "" then some ⟨ts.getD "", command⟩ else none

/-- `collect_command_history` of src/main.rs.

* `hc` is `config.history`; the function returns `Vec::new()` unless the
  section is present and `enabled.unwrap_or(true)` holds.
* `compile` models `Regex::new(p).ok()`; failed compilations are dropped by
  `filter_map`.
* `fileExists` models `path.exists()` for the resolved log file, `lines` the
  parse result of each line of that file in file order.
* If more than `max_entries` entries qualify the front is drained
  (`entries.drain(0..entries.len() - max_entries)`). -/
def collect_command_history (hc : Option HistoryConfig)
    (compile : String → Option (String → Bool))
    (fileExists : Bool) (lines : List LineParse) : List HistoryEntry :=
  match hc with
  | none => []
  | some c =>
    if c.enabled.getD true then
      let max_entries := c.max_entries.getD 20
      let patterns := c.patterns.getD default_patterns
      let compiled := patterns.filterMap compile
      if fileExists then
        let entries := lines.filterMap (historyKeep compiled)
        if max_entries < entries.length then
          entries.drop (entries.length - max_entries)
        else entries
      else []
    else []

/-- The last `n` elements of a list (all of it when it is shorter). -/
def lastN (n : Nat) (l : List α) : List α := l.drop (l.length - n)

/-- Spec-side qualification predicate, phrased from the claim: a line
contributes iff it parses as a structured record, its command field is a
non-empty string, and the compiled pattern set is empty or the command
matches at least one compiled pattern. -/
def specKeep (compiled : List (String → Bool)) : LineParse → Option HistoryEntry
  | .malformed => none
  | .record ts cmd =>
    match cmd with
    | none => none
    | some c =>
      if c ≠ "" ∧ (compiled.isEmpty ∨ ∃ re ∈ compiled, re c) then
        some ⟨ts.getD "", c⟩
      else none

/-! ## String primitives

Rust string operations used by the core, modelled on the character list of a
`String` so they evaluate inside the kernel. -/

/-- `str::starts_with`: prefix test on the characters. -/
def strStartsWith (s p : String) : Bool := p.data.isPrefixOf s.data

/-- Lexicographic character-list comparison; UTF-8 byte order coincides with
code-point order, so this is the ordering of Rust's `String: Ord` used by
`Vec::sort`. -/
def charListLe : List Char → List Char → Bool
  | [], _ => true
  | _ :: _, [] => false
  | a :: as, b :: bs => if a = b then charListLe as bs else decide (a < b)

/-- `String` comparison (see `charListLe`). -/
def strLe (s t : String) : Bool := charListLe s.data t.data

/-- Whitespace test of `str::trim` (ASCII portion). -/
def isWsChar (c : Char) : Bool := c = ' ' || c = '\t' || c = '\n' || c = '\r'

/-- `str::trim`: strip leading and trailing whitespace. -/
def strTrim (s : String) : String :=
  ⟨((s.data.dropWhile isWsChar).reverse.dropWhile isWsChar).reverse⟩

/-- Number of bytes of the UTF-8 encoding of a character. -/
def charUtf8Size (c : Char) : Nat :=
  if c.toNat < 0x80 then 1
  else if c.toNat < 0x800 then 2
  else if c.toNat < 0x10000 then 3
  else 4

/-- `str::len` of Rust: the UTF-8 byte length, not the character count. -/
def utf8Len (s : String) : Nat := (s.data.map charUtf8Size).sum

/-! ## Repository locator (`find_git_repos`) -/

/-- A directory of the scanned filesystem. `hasGitMarker` models
`current.join(".git").exists()`, `readable` models whether
`fs::read_dir(current)` succeeds, `children` are the subdirectory entries
(`entry.path().is_dir()`), name first. Regular files are irrelevant to the
scan and omitted. -/
inductive Dir where
  | mk (hasGitMarker : Bool) (readable : Bool) (children : List (String × Dir))

/-- `.git` marker of the directory. -/
def Dir.hasGitMarker : Dir → Bool
  | .mk g _ _ => g

/-- The deny-list test of `find_git_repos_recursive`: hidden names and
`node_modules`/`target`/`out` are skipped. -/
def skipDirName (name : String) : Bool :=
  strStartsWith name "." || name == "node_modules" || name == "target" || name == "out"

/-- `find_git_repos_recursive` of src/main.rs. Paths are lists of components
relative to the base (`current.strip_prefix(base_path)`); the source's
`depth`/`max_depth` pair is represented by the remaining depth budget
`fuel = max_depth + 1 - depth`, so the source's `depth > max_depth` early
return is the `fuel = 0` case. A directory with a `.git` marker is recorded
(unless it is the base itself, whose relative path is empty) and not
descended into; an unreadable directory contributes nothing. -/
def find_git_repos_recursive : Dir → List String → Nat → List (List String)
  | _, _, 0 => []
  | .mk hasGit readable children, rel, fuel + 1 =>
    if hasGit then
      if rel = [] then [] else [rel]
    else if readable then
      (children.map (fun nc =>
        if skipDirName nc.1 then []
        else find_git_repos_recursive nc.2 (rel ++ [nc.1]) fuel)).flatten
    else []

/-- Relative path components joined with `/`, as
`relative.to_string_lossy()` renders them. -/
def joinPath : List String → String
  | [] => ""
  | [x] => x
  | x :: xs => x ++ "/" ++ joinPath xs

/-- The ordering used by `repos.sort()` on the joined path strings. -/
def pathLe (p q : List String) : Prop := strLe (joinPath p) (joinPath q) = true

instance : DecidableRel pathLe := fun p q =>
  inferInstanceAs (Decidable (strLe (joinPath p) (joinPath q) = true))

/-- `find_git_repos` of src/main.rs: scan from the base with relative path
`[]` at depth 0 (budget `max_depth + 1`), then sort. -/
def find_git_repos (d : Dir) (maxDepth : Nat) : List (List String) :=
  List.insertionSort pathLe (find_git_repos_recursive d [] (maxDepth + 1))

/-- Well-formedness of the filesystem model: entry names within one
directory are distinct, as `fs::read_dir` guarantees. -/
inductive Dir.WF : Dir → Prop where
  | mk {g r : Bool} {children : List (String × Dir)} :
      (children.map Prod.fst).Nodup →
      (∀ nc ∈ children, Dir.WF nc.2) →
      Dir.WF (.mk g r children)

/-! ## Git status collector (`collect_git_info_for_path`) -/

/-- Outcome of each `git` subprocess query for one candidate path:
`revParseOk` models `rev-parse --is-inside-work-tree` succeeding; each
`Option String` is the stdout of the corresponding query when it ran
successfully, `none` when the command failed or the tool is missing. -/
structure GitQueries where
  revParseOk : Bool
  branchOut : Option String
  describeOut : Option String
  statusOut : Option String
  logOut : Option String

/-- `str::lines` of Rust: split on `'\n'`, no trailing empty line for a
trailing newline, a trailing `'\r'` of each line stripped. -/
def splitOnNl : List Char → List (List Char)
  | [] => [[]]
  | c :: cs =>
    if c = '\n' then [] :: splitOnNl cs
    else match splitOnNl cs with
      | [] => [[c]]
      | l :: ls => (c :: l) :: ls

/-- See `splitOnNl`. -/
def rustLines (s : String) : List String :=
  let parts := splitOnNl s.data
  let parts := if parts.getLast? = some [] then parts.dropLast else parts
  parts.map (fun l => String.mk (if l.getLast? = some '\r' then l.dropLast else l))

/-- The porcelain status-line classification loop of
`collect_git_info_for_path`: `" M"`/`"M "`/`"MM"` and any other non-blank
line count as modified, `"??"` as untracked. Returns
`(modified_files, untracked_files)`. -/
def countStatusLines (lines : List String) : Nat × Nat :=
  lines.foldl (fun acc line =>
    if strStartsWith line " M" || strStartsWith line "M " || strStartsWith line "MM" then
      (acc.1 + 1, acc.2)
    else if strStartsWith line "??" then (acc.1, acc.2 + 1)
    else if strTrim line = "" then acc
    else (acc.1 + 1, acc.2)) (0, 0)

/-- The last-commit truncation of `collect_git_info_for_path`: when
`commit_info.len()` (UTF-8 **bytes**) exceeds 50, keep the first 47
**characters** and append `"..."`; otherwise keep the string unchanged. -/
def truncateCommit (s : String) : String :=
  if 50 < utf8Len s then String.mk (s.data.take 47) ++ "..." else s

/-- `collect_git_info_for_path` of src/main.rs: `None` unless the path is a
working tree; branch from `branch --show-current` (trimmed), with a
parenthesized `describe` fallback when empty; dirty counts from the
porcelain status; `dirty = modified > 0 || untracked > 0`; last-commit
summary trimmed and truncated. A failed sub-query leaves the field at its
`Default` value. -/
def collect_git_info_for_path (repo_path : String) (q : GitQueries) : Option GitInfo :=
  if q.revParseOk then
    let branch0 := match q.branchOut with
      | some s => strTrim s
      | none => ""
    let branch := if branch0 = "" then
        match q.describeOut with
        | some s => "(" ++ strTrim s ++ ")"
        | none => branch0
      else branch0
    let counts := match q.statusOut with
      | some s => countStatusLines (rustLines s)
      | none => (0, 0)
    let is_dirty := decide (0 < counts.1) || decide (0 < counts.2)
    let last := match q.logOut with
      | some s => truncateCommit (strTrim s)
      | none => ""
    some ⟨repo_path, branch, is_dirty, counts.1, counts.2, last⟩
  else none

/-- The `sort_by(|a, b| a.repo_path.cmp(&b.repo_path))` ordering. -/
def repoPathLe (a b : GitInfo) : Prop := strLe a.repo_path b.repo_path = true

instance : DecidableRel repoPathLe := fun a b =>
  inferInstanceAs (Decidable (strLe a.repo_path b.repo_path = true))

/-- `collect_git_repos` of src/main.rs. `world` gives the subprocess
outcomes for every path (`collect_git_info_for_path path (world path)` is
the source's `collect_git_info_for_path(path)`), `cwd` is the process
working directory, `d` the directory tree at `cwd` scanned by auto-detect,
`cfg` is `config.git`. Root short-circuit first; else explicit paths if
configured; else auto-detect if enabled (default on, depth default 2); else
none. Relative paths are resolved against `cwd`, failed collections are
dropped, the result is sorted by path and capped at 10. -/
def collect_git_repos (world : String → GitQueries) (cwd : String) (d : Dir)
    (cfg : Option GitConfig) : List GitInfo :=
  match collect_git_info_for_path cwd (world cwd) with
  | some info => [{ info with repo_path := "." }]
  | none =>
    let auto_detect := (cfg.bind GitConfig.auto_detect).getD true
    let explicit_paths := cfg.bind GitConfig.paths
    let scan_depth := (cfg.bind GitConfig.scan_depth).getD 2
    let paths_to_check : List String :=
      match explicit_paths with
      | some paths => paths
      | none => if auto_detect then (find_git_repos d scan_depth).map joinPath else []
    let repos := paths_to_check.filterMap (fun path =>
      let full_path := if strStartsWith path "/" then path else cwd ++ "/" ++ path
      (collect_git_info_for_path full_path (world full_path)).map
        (fun info => { info with repo_path := path }))
    (List.insertionSort repoPathLe repos).take 10

/-! ## Work-state store -/

/-- JSON values, modelling the `serde_json` serialization of `WorkState`. -/
inductive Json where
  | null
  | bool (b : Bool)
  | num (n : Int)
  | str (s : String)
  | arr (xs : List Json)
  | obj (fields : List (String × Json))

/-- Object field lookup (`json["key"]`). -/
def Json.getField : Json → String → Option Json
  | .obj fs, k => fs.lookup k
  | _, _ => none

/-- `as_str`-style accessor. -/
def Json.asStr : Json → Option String
  | .str s => some s
  | _ => none

/-- Array accessor. -/
def Json.asArr : Json → Option (List Json)
  | .arr xs => some xs
  | _ => none

/-- serde `Serialize` for `TodoItem`. -/
def encodeTodo (t : TodoItem) : Json :=
  .obj [("content", .str t.content), ("status", .str t.status)]

/-- serde `Serialize` for `WorkState`, fields in declaration order. -/
def encodeWorkState (w : WorkState) : Json :=
  .obj [("saved_at", .str w.saved_at), ("trigger", .str w.trigger),
        ("task_summary", .str w.task_summary),
        ("working_files", .arr (w.working_files.map Json.str)),
        ("notes", .str w.notes),
        ("todos", .arr (w.todos.map encodeTodo))]

/-- Decode each element of a JSON array, failing if any element fails. -/
def optionMapM (f : α → Option β) : List α → Option (List β)
  | [] => some []
  | x :: xs => do
    let y ← f x
    let ys ← optionMapM f xs
    pure (y :: ys)

/-- serde `Deserialize` for `TodoItem`: both fields required strings. -/
def decodeTodo (j : Json) : Option TodoItem := do
  let c ← (j.getField "content").bind Json.asStr
  let s ← (j.getField "status").bind Json.asStr
  pure ⟨c, s⟩

/-- serde `Deserialize` for `WorkState`: every field required, with the
declared field types. -/
def decodeWorkState (j : Json) : Option WorkState := do
  let sa ← (j.getField "saved_at").bind Json.asStr
  let tr ← (j.getField "trigger").bind Json.asStr
  let ts ← (j.getField "task_summary").bind Json.asStr
  let wfJ ← (j.getField "working_files").bind Json.asArr
  let wf ← optionMapM Json.asStr wfJ
  let no ← (j.getField "notes").bind Json.asStr
  let tdJ ← (j.getField "todos").bind Json.asArr
  let td ← optionMapM decodeTodo tdJ
  pure ⟨sa, tr, ts, wf, no, td⟩

/-- Content of a file: text that parses as JSON, or unparseable text. -/
inductive FileContent where
  | json (j : Json)
  | garbage

/-- The filesystem as the work-state store sees it: path to content,
`none` when the file is absent. -/
def Store := String → Option FileContent

/-- `get_work_state_path` of src/main.rs. -/
def get_work_state_path (home : String) : String :=
  home ++ "/.contextkeeper/work-state.json"

/-- `save_work_state_to_file` of src/main.rs: serialize and unconditionally
overwrite the fixed per-user file (directory creation is modelled as always
succeeding). -/
def save_work_state_to_file (home : String) (st : Store) (state : WorkState) : Store :=
  fun p => if p = get_work_state_path home then some (.json (encodeWorkState state))
           else st p

/-- `load_work_state_from_file` of src/main.rs: `None` when the file is
absent, unreadable/unparseable, or does not decode as a `WorkState`. -/
def load_work_state_from_file (home : String) (st : Store) : Option WorkState :=
  match st (get_work_state_path home) with
  | none => none
  | some .garbage => none
  | some (.json j) => decodeWorkState j

/-- Core of the `save_work_state` tool handler of src/main.rs: parse the
optional `todos` JSON (`parseTodos` models
`serde_json::from_str::<Vec<TodoItem>>(t).ok()`, whose failure is discarded
by `unwrap_or_default`), default `working_files` to the auto-collected list
and `notes` to empty, build the state with `trigger = "manual"` and
`saved_at = now`, and write it. Returns the updated store and the persisted
state. -/
def save_work_state (st : Store) (home now : String) (task_summary : String)
    (working_files : Option (List String)) (autoFiles : List String)
    (notes : Option String) (todos : Option String)
    (parseTodos : String → Option (List TodoItem)) : Store × WorkState :=
  let todo_items := (todos.bind parseTodos).getD []
  let files := working_files.getD autoFiles
  let state : WorkState :=
    ⟨now, "manual", task_summary, files, notes.getD "", todo_items⟩
  (save_work_state_to_file home st state, state)

/-! ## Tiered renderer -/

/-- `BuildTarget` of src/main.rs. -/
structure BuildTarget where
  name : String
  description : String
  container_name : String
  lunch_target : String
  can_emulator : Bool
  can_flash : Bool
deriving DecidableEq

/-- `ContainerInfo` of src/main.rs. -/
structure ContainerInfo where
  name : String
  status : String
  runtime : String
deriving DecidableEq

/-- `AdbDevice` of src/main.rs. -/
structure AdbDevice where
  serial : String
  state : String
  device_type : String
deriving DecidableEq

/-- `Context` of src/main.rs: the immutable snapshot. -/
structure Context where
  project_name : String
  project_type : String
  targets : List BuildTarget
  containers : List ContainerInfo
  available_commands : List String
  hints : String
  command_history : List HistoryEntry
  git_repos : List GitInfo
  adb_devices : List AdbDevice
  work_state : Option WorkState
deriving DecidableEq

/-- Sequential `push_str` of one string per loop iteration. -/
def strConcat (l : List String) : String := l.foldl (fun a b => a ++ b) ""

/-- `Vec::join(sep)`. -/
def strJoinSep (sep : String) : List String → String
  | [] => ""
  | [x] => x
  | x :: xs => x ++ sep ++ strJoinSep sep xs

/-- `str::replace(c, rep)` on the character list. -/
def replaceChar (c : Char) (rep : List Char) : List Char → List Char
  | [] => []
  | x :: xs =>
    if x = c then rep ++ replaceChar c rep xs else x :: replaceChar c rep xs

/-- The `.replace('|', "\\|")` pipe escaping of the renderer. -/
def escapePipes (s : String) : String := ⟨replaceChar '|' ['\\', '|'] s.data⟩

/-- Scanner: `pipesEscapedAux b l` is true iff every `'|'` in `l` is
immediately preceded by a backslash (`b` says whether the previous
character was one). -/
def pipesEscapedAux : Bool → List Char → Bool
  | _, [] => true
  | afterBackslash, c :: rest =>
    if c = '|' then afterBackslash && pipesEscapedAux false rest
    else pipesEscapedAux (c = '\\') rest

/-- Every pipe character of the list is escaped by a preceding backslash. -/
def pipesEscaped (l : List Char) : Bool := pipesEscapedAux false l

/-- `format_git_status` of src/main.rs: the compact `{m}M {u}U` code. -/
def format_git_status (git : GitInfo) : String :=
  if git.is_dirty then
    if 0 < git.modified_files ∧ 0 < git.untracked_files then
      toString git.modified_files ++ "M " ++ toString git.untracked_files ++ "U"
    else if 0 < git.modified_files then
      toString git.modified_files ++ "M"
    else
      toString git.untracked_files ++ "U"
  else "clean"

/-- `format_work_state` of src/main.rs. -/
def format_work_state (ws : WorkState) : String :=
  "## Saved Work State\n"
  ++ ("- **Saved at:** " ++ ws.saved_at ++ "\n")
  ++ (if ws.task_summary = "" then "" else "- **Task:** " ++ ws.task_summary ++ "\n")
  ++ (if ws.working_files.isEmpty then "" else
      "- **Working files:**\n"
      ++ strConcat (ws.working_files.map (fun file => "  - " ++ file ++ "\n")))
  ++ (if ws.notes = "" then "" else "- **Notes:** " ++ ws.notes ++ "\n")
  ++ (if ws.todos.isEmpty then "" else
      "- **Todos:**\n"
      ++ strConcat (ws.todos.map (fun todo =>
          let checkbox := if todo.status = "completed" then "[x]"
            else if todo.status = "in_progress" then "[>]" else "[ ]"
          "  - " ++ checkbox ++ " " ++ todo.content ++ "\n")))
  ++ "\n"

/-- `format_minimal` of src/main.rs. -/
def format_minimal (ctx : Context) : String :=
  "# Context Recovery (Minimal)\n\n"
  ++ (match ctx.work_state with
      | some ws =>
        (if ws.task_summary = "" then "" else "**Task:** " ++ ws.task_summary ++ "\n")
        ++ (if ws.working_files.isEmpty then "" else
            "**Files:** " ++ strJoinSep ", " ws.working_files ++ "\n")
        ++ (if ws.notes = "" then "" else "**Notes:** " ++ ws.notes ++ "\n")
        ++ "\n"
      | none => "")
  ++ (let dirty := ctx.git_repos.filter (fun r => r.is_dirty)
      if dirty.isEmpty then "" else
        "**Changed repos:** "
        ++ strJoinSep ", " (dirty.map (fun r =>
            r.repo_path ++ " (" ++ format_git_status r ++ ")"))
        ++ "\n")
  ++ (match ctx.adb_devices with
      | [] => ""
      | device :: _ =>
        "**Device:** " ++ device.serial ++ " (" ++ device.device_type ++ ")\n")
  ++ "\n---\n"
  ++ "*Run `get_dev_context` with level=\"normal\" or \"full\" for more details.*\n"

/-- `format_normal` of src/main.rs. Free-text fields (`repo_path`, `branch`)
go into the dirty-repository table cells verbatim, without pipe escaping. -/
def format_normal (ctx : Context) : String :=
  "# Development Context\n\n"
  ++ (match ctx.work_state with | some ws => format_work_state ws | none => "")
  ++ (if ctx.hints = "" then "" else "## AI Hints\n" ++ "> " ++ ctx.hints ++ "\n\n")
  ++ (let dirty := ctx.git_repos.filter (fun r => r.is_dirty)
      if dirty.isEmpty then "" else
        "## Git Status (changes only)\n\n"
        ++ "| Repository | Branch | Status |\n"
        ++ "|------------|--------|--------|\n"
        ++ strConcat (dirty.map (fun git =>
            "| " ++ git.repo_path ++ " | " ++ git.branch ++ " | "
            ++ format_git_status git ++ " |\n"))
        ++ "\n")
  ++ (if ctx.containers.isEmpty then "" else
      "## Active Containers\n"
      ++ strConcat (ctx.containers.map (fun c =>
          "- " ++ c.name ++ " (" ++ c.status ++ ")\n"))
      ++ "\n")
  ++ (if ctx.adb_devices.isEmpty then "" else
      "## Connected Devices\n"
      ++ strConcat (ctx.adb_devices.map (fun device =>
          "- " ++ device.serial ++ " (" ++ device.state ++ ", "
          ++ device.device_type ++ ")\n"))
      ++ "\n")
  ++ "---\n"
  ++ "*Run `get_dev_context` with level=\"full\" for complete information.*\n"

/-- `format_full` of src/main.rs. The history command text (truncated to 77
characters plus ellipsis when over 80) and the last-commit summary are
pipe-escaped; `repo_path`, `branch`, timestamps, serials and the other
fields are inserted verbatim. -/
def format_full (ctx : Context) : String :=
  "# Development Context (Full)\n\n"
  ++ (if ctx.project_name = "" then "" else
      "## Project\n" ++ "- **Name:** " ++ ctx.project_name ++ "\n"
      ++ (if ctx.project_type = "" then "" else
          "- **Type:** " ++ ctx.project_type ++ "\n")
      ++ "\n")
  ++ (match ctx.work_state with | some ws => format_work_state ws | none => "")
  ++ (if ctx.hints = "" then "" else
      "## AI Hints (Important)\n" ++ "> " ++ ctx.hints ++ "\n\n")
  ++ (if ctx.targets.isEmpty then "" else
      "## Available Build Targets\n\n"
      ++ "| Target | Description | Container | Lunch Target |\n"
      ++ "|--------|-------------|-----------|---------------|\n"
      ++ strConcat (ctx.targets.map (fun target =>
          "| " ++ target.name ++ " | " ++ target.description ++ " | "
          ++ target.container_name ++ " | " ++ target.lunch_target ++ " |\n"))
      ++ "\n"
      ++ "### Target Capabilities\n"
      ++ strConcat (ctx.targets.map (fun target =>
          let caps := (if target.can_emulator then ["emulator"] else [])
            ++ (if target.can_flash then ["flash"] else [])
          if caps.isEmpty then "" else
            "- **" ++ target.name ++ ":** " ++ strJoinSep ", " caps ++ "\n"))
      ++ "\n")
  ++ (if ctx.containers.isEmpty then "" else
      "## Active Containers\n"
      ++ strConcat (ctx.containers.map (fun c =>
          "- **" ++ c.name ++ "** (" ++ c.runtime ++ "): " ++ c.status ++ "\n"))
      ++ "\n")
  ++ (if ctx.available_commands.isEmpty then "" else
      "## Example Commands\n" ++ "```bash\n"
      ++ strConcat (ctx.available_commands.map (fun cmd => cmd ++ "\n"))
      ++ "```\n")
  ++ (if ctx.command_history.isEmpty then "" else
      "## Recent Relevant Commands\n"
      ++ "These commands were executed in previous sessions (useful after context compression):\n\n"
      ++ "| Time | Command |\n"
      ++ "|------|--------|\n"
      ++ strConcat (ctx.command_history.map (fun entry =>
          let cmd_display := if 80 < entry.command.data.length
            then String.mk (entry.command.data.take 77) ++ "..."
            else entry.command
          let cmd_escaped := escapePipes cmd_display
          "| " ++ entry.timestamp ++ " | `" ++ cmd_escaped ++ "` |\n"))
      ++ "\n")
  ++ (if ctx.git_repos.isEmpty then "" else
      "## Git Status\n\n"
      ++ "| Repository | Branch | Status | Last Commit |\n"
      ++ "|------------|--------|--------|-------------|\n"
      ++ strConcat (ctx.git_repos.map (fun git =>
          let commit := escapePipes git.last_commit_short
          "| " ++ git.repo_path ++ " | " ++ git.branch ++ " | "
          ++ format_git_status git ++ " | " ++ commit ++ " |\n"))
      ++ "\n")
  ++ (if ctx.adb_devices.isEmpty then "" else
      "## Connected Devices\n"
      ++ "| Serial | State | Type |\n"
      ++ "|--------|-------|------|\n"
      ++ strConcat (ctx.adb_devices.map (fun device =>
          "| " ++ device.serial ++ " | " ++ device.state ++ " | "
          ++ device.device_type ++ " |\n"))
      ++ "\n")

/-- `format_context_markdown` of src/main.rs: unrecognized levels fall back
to normal. -/
def format_context_markdown (ctx : Context) (level : String) : String :=
  match level with
  | "minimal" => format_minimal ctx
  | "normal" => format_normal ctx
  | "full" => format_full ctx
  | _ => format_normal ctx

theorem historyKeep_eq_specKeep (compiled : List (String → Bool)) (l : LineParse) :
    historyKeep compiled l = specKeep compiled l := by
  cases l with
  | malformed => rfl
  | record ts cmd =>
    cases cmd with
    | none => simp [historyKeep, specKeep]
    | some c =>
      by_cases hc : c = ""
      · subst hc; simp [historyKeep, specKeep]
      · simp only [historyKeep, specKeep, Option.getD_some]
        have hiff : (compiled.isEmpty || compiled.any (fun re => re c)) = true
            ↔ (compiled = [] ∨ ∃ re ∈ compiled, re c) := by
          simp [List.any_eq_true, List.isEmpty_iff]
        by_cases hm : compiled = [] ∨ ∃ re ∈ compiled, re c
        · have hb := hiff.mpr hm
          simp [hb, hc, hm]
        · have hb : (compiled.isEmpty || compiled.any (fun re => re c)) = false := by
            rw [Bool.eq_false_iff]
            intro h
            exact hm (hiff.mp h)
          simp [hb, hc, hm]

theorem take_last_eq_lastN (n : Nat) (l : List α) :
    (if n < l.length then l.drop (l.length - n) else l) = lastN n l := by
  by_cases h : n < l.length
  · simp [h, lastN]
  · have : l.length - n = 0 := Nat.sub_eq_zero_of_le (Nat.le_of_not_lt h)
    simp [h, lastN, this]

theorem collect_command_history_spec (hc : HistoryConfig)
    (compile : String → Option (String → Bool)) (lines : List LineParse)
    (hEnabled : hc.enabled.getD true = true) :
    collect_command_history (some hc) compile true lines =
      lastN (hc.max_entries.getD 20)
        (lines.filterMap
          (specKeep ((hc.patterns.getD default_patterns).filterMap compile))) := by
  have hfun : historyKeep ((hc.patterns.getD default_patterns).filterMap compile)
      = specKeep ((hc.patterns.getD default_patterns).filterMap compile) :=
    funext (historyKeep_eq_specKeep _)
  simp only [collect_command_history, hEnabled, if_true, hfun]
  exact take_last_eq_lastN _ _

/-- C4: with history collection enabled and the log file present, a line
contributes an entry iff it parses as a record with a non-empty command that
matches the (possibly empty) compiled pattern set, and the result is the last
`max_entries` qualifying lines in file order (`specKeep` is phrased from the
claim; `lastN` keeps the most recent entries, the whole list when fewer
qualify). -/
theorem history_filter_characterization (hc : HistoryConfig)
    (compile : String → Option (String → Bool)) (lines : List LineParse)
    (hEnabled : hc.enabled.getD true = true) :
    collect_command_history (some hc) compile true lines =
      lastN (hc.max_entries.getD 20)
        (lines.filterMap
          (specKeep ((hc.patterns.getD default_patterns).filterMap compile))) :=
  collect_command_history_spec hc compile lines hEnabled

theorem history_filter_characterization_witness :
    collect_command_history
        (some (⟨some true, none, none, some 2⟩ : HistoryConfig))
        (fun p => if p = "^git" then some (fun c => String.startsWith c "git") else none)
        true
        [LineParse.record (some "t1") (some "git add"),
         LineParse.record (some "t2") (some "make"),
         LineParse.malformed,
         LineParse.record (some "t3") (some "git push"),
         LineParse.record (some "t4") (some "git pull")] =
      lastN 2
        ([LineParse.record (some "t1") (some "git add"),
          LineParse.record (some "t2") (some "make"),
          LineParse.malformed,
          LineParse.record (some "t3") (some "git push"),
          LineParse.record (some "t4") (some "git pull")].filterMap
            (specKeep ((default_patterns).filterMap
              (fun p => if p = "^git" then some (fun c => String.startsWith c "git") else none)))) :=
  history_filter_characterization _ _ _ rfl

/-- C5 (amended): the history collector returns empty without reading the log
not only when `enabled = some false`, but also when the `[history]` section is
entirely absent; when the section is present and `enabled` is unset, it
behaves exactly as if `enabled = some true` (the log is read with default
settings). -/
theorem history_disabled_or_absent_short_circuit (hc : Option HistoryConfig)
    (compile : String → Option (String → Bool)) (fileExists : Bool)
    (lines : List LineParse) :
    (hc = none → collect_command_history hc compile fileExists lines = []) ∧
    (∀ c, hc = some c → c.enabled = some false →
      collect_command_history hc compile fileExists lines = []) ∧
    (∀ c, hc = some c → c.enabled ≠ some false →
      collect_command_history hc compile fileExists lines =
        collect_command_history (some {c with enabled := some true}) compile
          fileExists lines) := by
  refine ⟨?_, ?_, ?_⟩
  · rintro rfl; rfl
  · rintro c rfl h
    simp [collect_command_history, h]
  · rintro c rfl h
    have he : c.enabled.getD true = true := by
      cases hv : c.enabled with
      | none => rfl
      | some b => cases b with
        | false => exact absurd hv h
        | true => rfl
  -- both configurations agree on every field the collector reads
    simp [collect_command_history, he]

theorem history_short_circuit_witness :
    collect_command_history (some (⟨some false, none, none, none⟩ : HistoryConfig))
        (fun _ => (none : Option (String → Bool))) true
        [LineParse.record (some "t") (some "make")] = [] ∧
    collect_command_history (some (⟨none, none, none, none⟩ : HistoryConfig))
        (fun _ => (none : Option (String → Bool))) true
        [LineParse.record (some "t") (some "make")] =
      collect_command_history (some (⟨some true, none, none, none⟩ : HistoryConfig))
        (fun _ => (none : Option (String → Bool))) true
        [LineParse.record (some "t") (some "make")] :=
  ⟨(history_disabled_or_absent_short_circuit _ _ _ _).2.1 _ rfl rfl,
   (history_disabled_or_absent_short_circuit _ _ _ _).2.2 _ rfl (by decide)⟩

/-- C5 counterexample: with the `[history]` section entirely absent the
collector returns empty even though the same log line qualifies (the very
same line is returned when the section is present with `enabled` unset), so
collection is not "enabled in every configuration other than explicit
disable". -/
theorem history_absent_section_counterexample :
    collect_command_history none (fun _ => none) true
        [LineParse.record (some "t") (some "make")] = [] ∧
    collect_command_history (some (⟨none, none, none, none⟩ : HistoryConfig))
        (fun _ => none) true
        [LineParse.record (some "t") (some "make")] =
      [⟨"t", "make"⟩] := by
  constructor
  · rfl
  · rfl

/-- C10: every configured pattern that fails to compile is dropped by
`filter_map`; when every configured pattern fails to compile the compiled set
is empty and the filter keeps every parsed line with a non-empty command
(`specKeep []` has an empty pattern set, so only the non-empty-command test
remains). -/
theorem failed_patterns_dropped (hc : HistoryConfig)
    (compile : String → Option (String → Bool)) (lines : List LineParse)
    (ps : List String)
    (hEnabled : hc.enabled.getD true = true)
    (hPs : hc.patterns = some ps)
    (hAll : ∀ p ∈ ps, compile p = none) :
    (hc.patterns.getD default_patterns).filterMap compile = [] ∧
    collect_command_history (some hc) compile true lines =
      lastN (hc.max_entries.getD 20) (lines.filterMap (specKeep [])) := by
  have hnil : (hc.patterns.getD default_patterns).filterMap compile = [] := by
    rw [hPs]
    exact List.filterMap_eq_nil_iff.mpr hAll
  refine ⟨hnil, ?_⟩
  rw [collect_command_history_spec hc compile lines hEnabled, hnil]

theorem failed_patterns_dropped_witness :
    ((⟨some true, none, some ["[", "("], some 20⟩ : HistoryConfig).patterns.getD
        default_patterns).filterMap (fun _ => (none : Option (String → Bool))) = [] ∧
    collect_command_history
        (some (⟨some true, none, some ["[", "("], some 20⟩ : HistoryConfig))
        (fun _ => (none : Option (String → Bool))) true
        [LineParse.record (some "t") (some "anything"),
         LineParse.record (some "u") (some "")] =
      lastN 20
        ([LineParse.record (some "t") (some "anything"),
          LineParse.record (some "u") (some "")].filterMap (specKeep [])) :=
  failed_patterns_dropped _ _ _ ["[", "("] rfl rfl (fun _ _ => rfl)

/-- C2 counterexample: a base directory that has the `.git` marker (and even
contains a nested repository) makes `find_git_repos` return the empty list —
not a single-element list containing the base path. The base's relative path
is empty, so the `!rel_str.is_empty()` guard drops it and the function
returns without scanning. -/
theorem find_git_repos_root_counterexample :
    Dir.hasGitMarker (.mk true true [("sub", .mk true true [])]) = true ∧
    find_git_repos (.mk true true [("sub", .mk true true [])]) 2 = [] :=
  ⟨rfl, rfl⟩

/-- C2 (amended): when the base path itself is a working tree,
`find_git_repos` performs no scanning of subdirectories and returns the
empty list (the children are never examined — the result is `[]` for every
possible list of children); the single `"."` entry of the spec is produced
by the caller `collect_git_repos`, not by `find_git_repos`. -/
theorem find_git_repos_root_short_circuit (r : Bool)
    (children : List (String × Dir)) (maxDepth : Nat) :
    find_git_repos (.mk true r children) maxDepth = [] :=
  rfl

theorem frr_mem_extends (fuel : Nat) :
    ∀ (d : Dir) (rel p : List String),
      p ∈ find_git_repos_recursive d rel fuel → rel <+: p := by
  induction fuel with
  | zero =>
    intro d rel p h
    cases d
    simp [find_git_repos_recursive] at h
  | succ n ih =>
    intro d rel p h
    rcases d with ⟨g, r, children⟩
    simp only [find_git_repos_recursive] at h
    cases g with
    | true =>
      by_cases hrel : rel = []
      · simp [hrel] at h
      · simp [hrel] at h
        exact h ▸ List.prefix_refl rel
    | false =>
      cases r with
      | false => simp at h
      | true =>
        simp only [if_neg Bool.false_ne_true, if_pos rfl, if_true] at h
        rw [List.mem_flatten] at h
        obtain ⟨l, hl, hpl⟩ := h
        obtain ⟨nc, hnc, rfl⟩ := List.mem_map.mp hl
        by_cases hs : skipDirName nc.1 = true
        · simp [hs] at hpl
        · simp only [if_neg hs] at hpl
          exact (List.prefix_append rel [nc.1]).trans (ih nc.2 (rel ++ [nc.1]) p hpl)

theorem frr_prefix_free (fuel : Nat) :
    ∀ (d : Dir) (rel p q : List String), Dir.WF d →
      p ∈ find_git_repos_recursive d rel fuel →
      q ∈ find_git_repos_recursive d rel fuel → p ≠ q → ¬ p <+: q := by
  induction fuel with
  | zero =>
    intro d rel p q _ hp _ _
    cases d
    simp [find_git_repos_recursive] at hp
  | succ n ih =>
    intro d rel p q hwf hp hq hne
    rcases d with ⟨g, r, children⟩
    cases hwf with
    | mk hnd hch =>
    simp only [find_git_repos_recursive] at hp hq
    cases g with
    | true =>
      by_cases hrel : rel = []
      · simp [hrel] at hp
      · simp [hrel] at hp hq
        exact absurd (hp.trans hq.symm) hne
    | false =>
      cases r with
      | false => simp at hp
      | true =>
        simp only [if_neg Bool.false_ne_true, if_pos rfl, if_true] at hp hq
        rw [List.mem_flatten] at hp hq
        obtain ⟨lp, hlp, hplp⟩ := hp
        obtain ⟨nc, hnc, rfl⟩ := List.mem_map.mp hlp
        obtain ⟨lq, hlq, hqlq⟩ := hq
        obtain ⟨mc, hmc, rfl⟩ := List.mem_map.mp hlq
        by_cases hsn : skipDirName nc.1 = true
        · simp [hsn] at hplp
        by_cases hsm : skipDirName mc.1 = true
        · simp [hsm] at hqlq
        simp only [if_neg hsn] at hplp
        simp only [if_neg hsm] at hqlq
        by_cases hname : nc.1 = mc.1
        · have heq : nc = mc := List.inj_on_of_nodup_map hnd hnc hmc hname
          subst heq
          exact ih nc.2 (rel ++ [nc.1]) p q (hch nc hnc) hplp hqlq hne
        · intro hpq
          obtain ⟨t, ht⟩ := (frr_mem_extends n nc.2 _ p hplp).trans hpq
          obtain ⟨s, hs⟩ := frr_mem_extends n mc.2 _ q hqlq
          rw [← hs, List.append_assoc, List.append_assoc] at ht
          have hts := (List.append_right_inj rel).mp ht
          simp only [List.cons_append, List.nil_append, List.cons.injEq] at hts
          exact hname hts.1

/-- C6: for every well-formed directory tree (distinct entry names, as the
filesystem guarantees) and every `max_depth`, no discovered repository path
is a strict descendant — a path-prefix extension — of another discovered
path: a directory with a `.git` marker is recorded and never descended
into, and distinct sibling subtrees yield paths diverging at that
component. -/
theorem find_git_repos_no_nested (d : Dir) (maxDepth : Nat) (hwf : Dir.WF d)
    (p q : List String) (hp : p ∈ find_git_repos d maxDepth)
    (hq : q ∈ find_git_repos d maxDepth) (hne : p ≠ q) : ¬ p <+: q := by
  simp only [find_git_repos] at hp hq
  have perm := List.perm_insertionSort pathLe
    (find_git_repos_recursive d [] (maxDepth + 1))
  exact frr_prefix_free (maxDepth + 1) d [] p q hwf
    (perm.mem_iff.mp hp) (perm.mem_iff.mp hq) hne

theorem find_git_repos_no_nested_witness : ¬ [("a" : String)] <+: ["b", "c"] :=
  find_git_repos_no_nested
    (.mk false true [("a", .mk true true []), ("b", .mk false true [("c", .mk true true [])])])
    2
    (by
      refine Dir.WF.mk (by decide) ?_
      intro nc hnc
      simp only [List.mem_cons, List.not_mem_nil, or_false] at hnc
      rcases hnc with rfl | rfl
      · exact Dir.WF.mk (by decide) (by intro mc hmc; simp at hmc)
      · refine Dir.WF.mk (by decide) ?_
        intro mc hmc
        simp only [List.mem_cons, List.not_mem_nil, or_false] at hmc
        rcases hmc with rfl
        exact Dir.WF.mk (by decide) (by intro kc hkc; simp at hkc))
    ["a"] ["b", "c"] (by decide) (by decide) (by decide)

/-- C1: whenever the working directory itself is a working tree
(`collect_git_info_for_path` succeeds on `cwd`), `collect_git_repos`
returns exactly that one entry with `repo_path = "."` — for every
configuration (explicit paths and/or auto-detect) and every directory tree,
so no configured or auto-detected repository appears in the result. -/
theorem collect_git_repos_root_short_circuit (world : String → GitQueries)
    (cwd : String) (d : Dir) (cfg : Option GitConfig) (info : GitInfo)
    (h : collect_git_info_for_path cwd (world cwd) = some info) :
    collect_git_repos world cwd d cfg = [{ info with repo_path := "." }] := by
  simp [collect_git_repos, h]

theorem collect_git_repos_root_short_circuit_witness :
    collect_git_repos
        (fun _ => ⟨true, some "main", none, some "", some "abc fix"⟩) "/w"
        (.mk false true [("sub", .mk true true [])])
        (some ⟨some ["sub", "other"], some true, some 2⟩) =
      [⟨".", "main", false, 0, 0, "abc fix"⟩] :=
  collect_git_repos_root_short_circuit _ _ _ _
    ⟨"/w", "main", false, 0, 0, "abc fix"⟩ rfl

/-- C3 counterexample: a 20-character commit summary of 3-byte characters
(60 UTF-8 bytes) is truncated — `"..."` is appended — even though it has at
most 50 characters, because the `commit_info.len() > 50` test counts bytes,
not characters. -/
theorem last_commit_truncation_counterexample :
    (String.mk (List.replicate 20 '語')).data.length = 20 ∧
    (collect_git_info_for_path "."
        ⟨true, none, none, none, some (String.mk (List.replicate 20 '語'))⟩).map
      GitInfo.last_commit_short =
      some (String.mk (List.replicate 20 '語') ++ "...") ∧
    String.mk (List.replicate 20 '語') ++ "..." ≠ String.mk (List.replicate 20 '語') :=
  ⟨by decide, by decide, by decide⟩

/-- C3 (amended): the stored last-commit summary is the trimmed log output
unchanged when its UTF-8 **byte** length is at most 50, and otherwise its
first 47 **characters** followed by `"..."`; the longer-than-50 decision
counts bytes (`str::len`), only the kept prefix is counted in characters. -/
theorem last_commit_truncation (path : String) (q : GitQueries) (s : String)
    (hok : q.revParseOk = true) (hlog : q.logOut = some s) :
    (collect_git_info_for_path path q).map GitInfo.last_commit_short =
      some (if 50 < utf8Len (strTrim s)
            then String.mk ((strTrim s).data.take 47) ++ "..."
            else strTrim s) := by
  obtain ⟨ok, b, de, st, lo⟩ := q
  simp only at hok hlog
  subst hok hlog
  simp [collect_git_info_for_path, truncateCommit]

theorem last_commit_truncation_witness :
    (collect_git_info_for_path "."
        ⟨true, none, none, none, some (String.mk (List.replicate 20 '語'))⟩).map
      GitInfo.last_commit_short =
      some (if 50 < utf8Len (strTrim (String.mk (List.replicate 20 '語')))
            then String.mk ((strTrim (String.mk (List.replicate 20 '語'))).data.take 47) ++ "..."
            else strTrim (String.mk (List.replicate 20 '語'))) :=
  last_commit_truncation _ _ _ rfl rfl

theorem mapM_asStr_encode (l : List String) :
    optionMapM Json.asStr (l.map Json.str) = some l := by
  induction l with
  | nil => rfl
  | cons x xs ih => simp [optionMapM, ih, Json.asStr]

theorem mapM_decodeTodo_encode (ts : List TodoItem) :
    optionMapM decodeTodo (ts.map encodeTodo) = some ts := by
  induction ts with
  | nil => rfl
  | cons t ts ih =>
    simp [optionMapM, ih, decodeTodo, encodeTodo, Json.getField, Json.asStr,
      List.lookup]

theorem decode_encode_workState (w : WorkState) :
    decodeWorkState (encodeWorkState w) = some w := by
  obtain ⟨sa, tr, ts, wf, no, td⟩ := w
  simp [decodeWorkState, encodeWorkState, Json.getField, Json.asStr, Json.asArr,
    List.lookup, mapM_asStr_encode, mapM_decodeTodo_encode]

/-- C7: loading from a store where the work-state file is absent or fails
to parse yields nothing (the model is total, so no exception is possible);
and a `save` followed by a `load` returns a state equal to the saved one in
every field (structure equality covers `saved_at`, `trigger`,
`task_summary`, the ordered `working_files`, `notes`, and the ordered
`todos` with content and status). -/
theorem work_state_save_load_roundtrip (home : String) (st : Store) (w : WorkState) :
    (st (get_work_state_path home) = none →
      load_work_state_from_file home st = none) ∧
    (st (get_work_state_path home) = some .garbage →
      load_work_state_from_file home st = none) ∧
    load_work_state_from_file home (save_work_state_to_file home st w) = some w := by
  refine ⟨?_, ?_, ?_⟩
  · intro h; simp [load_work_state_from_file, h]
  · intro h; simp [load_work_state_from_file, h]
  · simp [load_work_state_from_file, save_work_state_to_file, decode_encode_workState]

theorem work_state_save_load_roundtrip_witness :
    load_work_state_from_file "/h" (fun _ => none) = none ∧
    load_work_state_from_file "/h" (fun _ => some .garbage) = none ∧
    load_work_state_from_file "/h"
        (save_work_state_to_file "/h" (fun _ => none)
          ⟨"2024-01-01T00:00:00Z", "manual", "task", ["a.rs", "a.rs"], "n",
           [⟨"do it", "pending"⟩, ⟨"later", "in_progress"⟩]⟩) =
      some ⟨"2024-01-01T00:00:00Z", "manual", "task", ["a.rs", "a.rs"], "n",
           [⟨"do it", "pending"⟩, ⟨"later", "in_progress"⟩]⟩ :=
  ⟨(work_state_save_load_roundtrip "/h" (fun _ => none)
      ⟨"", "", "", [], "", []⟩).1 rfl,
   (work_state_save_load_roundtrip "/h" (fun _ => some .garbage)
      ⟨"", "", "", [], "", []⟩).2.1 rfl,
   (work_state_save_load_roundtrip "/h" (fun _ => none)
      ⟨"2024-01-01T00:00:00Z", "manual", "task", ["a.rs", "a.rs"], "n",
       [⟨"do it", "pending"⟩, ⟨"later", "in_progress"⟩]⟩).2.2⟩

/-- C9: when the `todos` argument is present but does not parse as a JSON
array of `{content, status}` items, the save operation still goes through:
the persisted state has an empty todo list, the whole result is the same as
if `todos` had been omitted (the malformed input is silently discarded, not
rejected), and loading afterwards returns that state. -/
theorem malformed_todos_discarded (st : Store) (home now task : String)
    (wf : Option (List String)) (autoFiles : List String) (notes : Option String)
    (t : String) (parseTodos : String → Option (List TodoItem))
    (h : parseTodos t = none) :
    (save_work_state st home now task wf autoFiles notes (some t) parseTodos).2.todos
      = [] ∧
    save_work_state st home now task wf autoFiles notes (some t) parseTodos =
      save_work_state st home now task wf autoFiles notes none parseTodos ∧
    load_work_state_from_file home
        (save_work_state st home now task wf autoFiles notes (some t) parseTodos).1 =
      some (save_work_state st home now task wf autoFiles notes (some t) parseTodos).2 := by
  refine ⟨?_, ?_, ?_⟩
  · simp [save_work_state, h]
  · simp [save_work_state, h]
  · simp [save_work_state, load_work_state_from_file, save_work_state_to_file,
      decode_encode_workState]

theorem malformed_todos_discarded_witness :
    (save_work_state (fun _ => none) "/h" "T" "x" none ["f.rs"] none
        (some "not-json") (fun _ => none)).2.todos = [] ∧
    save_work_state (fun _ => none) "/h" "T" "x" none ["f.rs"] none
        (some "not-json") (fun _ => none) =
      save_work_state (fun _ => none) "/h" "T" "x" none ["f.rs"] none
        none (fun _ => none) ∧
    load_work_state_from_file "/h"
        (save_work_state (fun _ => none) "/h" "T" "x" none ["f.rs"] none
          (some "not-json") (fun _ => none)).1 =
      some (save_work_state (fun _ => none) "/h" "T" "x" none ["f.rs"] none
          (some "not-json") (fun _ => none)).2 :=
  malformed_todos_discarded (fun _ => none) "/h" "T" "x" none ["f.rs"] none
    "not-json" (fun _ => none) rfl

theorem pipesEscapedAux_replace (l : List Char) :
    ∀ b, pipesEscapedAux b (replaceChar '|' ['\\', '|'] l) = true := by
  induction l with
  | nil => intro b; rfl
  | cons x xs ih =>
    intro b
    by_cases hx : x = '|'
    · subst hx
      simp [replaceChar, pipesEscapedAux, ih]
    · simp [replaceChar, hx, pipesEscapedAux, ih]

set_option maxRecDepth 20000 in
/-- C8 counterexample: at the normal level, a branch label containing a pipe
is inserted into the dirty-repository table cell verbatim — the raw `fe|at`
appears in the output and its escaped form `fe\|at` does not — so not every
pipe inside a free-text field is escaped before insertion into a table
cell. -/
theorem format_pipe_escape_counterexample :
    ("fe|at".data <:+:
      (format_normal ⟨"", "", [], [], [], "", [],
        [⟨"r1", "fe|at", true, 1, 0, "c1"⟩], [], none⟩).data) ∧
    ¬ ("fe\\|at".data <:+:
      (format_normal ⟨"", "", [], [], [], "", [],
        [⟨"r1", "fe|at", true, 1, 0, "c1"⟩], [], none⟩).data) := by
  constructor
  · decide
  · decide

/-- C8 (amended): pipe escaping is applied to exactly two free-text fields —
the rendered history command text and the full-table last-commit summary —
and an escaped field contains no unescaped pipe; the repository path, the
branch label, the timestamp and the remaining fields are inserted into
table cells verbatim (shown by the rendered rows for an arbitrary
repository and an arbitrary history entry at the full level). -/
theorem pipe_escaping_scope (s : String) (g : GitInfo) (e : HistoryEntry) :
    pipesEscaped (escapePipes s).data = true ∧
    format_full ⟨"", "", [], [], [], "", [], [g], [], none⟩ =
      "# Development Context (Full)\n\n"
      ++ "## Git Status\n\n"
      ++ "| Repository | Branch | Status | Last Commit |\n"
      ++ "|------------|--------|--------|-------------|\n"
      ++ ("| " ++ g.repo_path ++ " | " ++ g.branch ++ " | "
          ++ format_git_status g ++ " | " ++ escapePipes g.last_commit_short ++ " |\n")
      ++ "\n" ∧
    format_full ⟨"", "", [], [], [], "", [e], [], [], none⟩ =
      "# Development Context (Full)\n\n"
      ++ "## Recent Relevant Commands\n"
      ++ "These commands were executed in previous sessions (useful after context compression):\n\n"
      ++ "| Time | Command |\n"
      ++ "|------|--------|\n"
      ++ ("| " ++ e.timestamp ++ " | `"
          ++ escapePipes (if 80 < e.command.data.length
              then String.mk (e.command.data.take 77) ++ "..." else e.command)
          ++ "` |\n")
      ++ "\n" := by
  refine ⟨pipesEscapedAux_replace s.data false, ?_, ?_⟩
  · simp [format_full, strConcat, String.append_assoc, -String.reduceAppend]
  · simp [format_full, strConcat, String.append_assoc, -String.reduceAppend]

end ContextKeeper
